import Mathlib

/-!
Verification of `testing-shiftjis/generate_test_data.py`.

Shallow embedding of the Shift-JIS / JA16SJISTILDE test-data generator.
The program enumerates candidate Shift-JIS (cp932) code points, asks the
platform codec to decode each one, classifies the decoded characters, and
serializes the resulting table as CSV and HTML.

The platform codec (Python's `cp932`) is not part of the repository; the
embedding therefore takes the decoder as a parameter
(`Codec := List Nat → Option Char`, one decoded Unicode scalar per 1- or
2-byte sequence, which is how cp932 behaves on every sequence the tool
submits).  Facts that depend on the actual cp932 mapping are stated either
with an explicit hypothesis recording the documented mapping, or against
`cp932_single_byte_model`, a model of the codec on the single-byte range,
built from the documented Windows-31J tables.

All machine integers of the Python source are embedded as `Nat` (the source
only ever handles non-negative code points below 2^16); the JIS row/column
arithmetic, which can go negative in Python, is embedded with `Int`.
`x >> 8` and `x & 0xFF` on these non-negative values are embedded as
`x / 256` and `x % 256`, and `(high << 8) | low` as `high * 256 + low`
(`low < 256` in every call site, so the bitwise form agrees).
-/

/-- Uppercase hexadecimal digit for `n < 16` (as produced by Python's
`'%X'` formatting after `.upper()`). -/
def hexChar (n : Nat) : Char :=
  if n < 10 then Char.ofNat (48 + n) else Char.ofNat (55 + n)

/-- Big-endian uppercase hex digits of `n`, with enough fuel; no leading
zeros (empty for `n = 0`). -/
def hexDigitsAux : Nat → Nat → List Char
  | 0, _ => []
  | _ + 1, 0 => []
  | fuel + 1, n => hexDigitsAux fuel (n / 16) ++ [hexChar (n % 16)]

/-- Python's `f'{n:0wX}'` formatting: uppercase hex, zero-padded on the
left to at least `w` digits.  All values formatted by the tool are below
`16 ^ 8`, so fuel `8` is exact. -/
def padHex (w n : Nat) : String :=
  let ds := if n = 0 then ['0'] else hexDigitsAux 8 n
  String.mk (List.replicate (w - ds.length) '0' ++ ds)

/-- Python's `bytes.hex().upper()`: each byte as two uppercase hex digits,
concatenated. -/
def bytesHexUpper (bs : List Nat) : String :=
  String.join (bs.map (fun b => padHex 2 b))

/-- The UTF-8 encoding of a Unicode scalar value, as Python's
`str.encode('utf-8')` produces for a one-character string.  Total on
`Char` (Lean's `Char` excludes surrogates, and cp932 never decodes to a
surrogate). -/
def utf8EncodeChar (c : Char) : List Nat :=
  let n := c.toNat
  if n < 0x80 then [n]
  else if n < 0x800 then [0xC0 + n / 64, 0x80 + n % 64]
  else if n < 0x10000 then [0xE0 + n / 4096, 0x80 + n / 64 % 64, 0x80 + n % 64]
  else [0xF0 + n / 262144, 0x80 + n / 4096 % 64, 0x80 + n / 64 % 64, 0x80 + n % 64]

/-- `sjis_to_row_col` (source lines 25-43): convert a Shift-JIS double-byte
code to JIS row/column (ku/ten).  Python's ints can go negative here, so
the result lives in `Int`. -/
def sjis_to_row_col (sjis_code : Nat) : Int × Int :=
  let high : Int := sjis_code / 256 % 256
  let low : Int := sjis_code % 256
  let row : Int := if high ≤ 0x9F then (high - 0x81) * 2 + 1 else (high - 0xC1) * 2 + 1
  if low < 0x7F then (row, low - 0x40 + 1)
  else if low ≤ 0x9E then (row, low - 0x40)
  else (row + 1, low - 0x9E)

/-- `is_valid_sjis_doublebyte` (source lines 46-59). -/
def is_valid_sjis_doublebyte (sjis_code : Nat) : Bool :=
  let high := sjis_code / 256 % 256
  let low := sjis_code % 256
  ((0x81 ≤ high && high ≤ 0x9F) || (0xE0 ≤ high && high ≤ 0xFC)) &&
  ((0x40 ≤ low && low ≤ 0x7E) || (0x80 ≤ low && low ≤ 0xFC))

/-- `is_pua_character` (source lines 62-70): lead byte in the Private Use
Area range 0xF0-0xF9. -/
def is_pua_character (sjis_code : Nat) : Bool :=
  let high := sjis_code / 256 % 256
  0xF0 ≤ high && high ≤ 0xF9

/-- The `problem_chars` literal list (source lines 95 and 175). -/
def problem_chars : List Nat := [0x815C, 0x8160, 0x8161, 0x817C, 0x8191, 0x8192, 0x81CA]

/-- `get_category` (source lines 73-125).  The `try`/`except` around the
row computation cannot fire (the body is pure integer arithmetic, total in
Python), so it is embedded without an error path. -/
def get_category (sjis_code : Nat) : String :=
  if sjis_code = 0x5C then "SPECIAL_SINGLE"
  else if sjis_code = 0x7E then "SPECIAL_SINGLE"
  else if 0x20 ≤ sjis_code ∧ sjis_code ≤ 0x7F then "ASCII"
  else if 0xA1 ≤ sjis_code ∧ sjis_code ≤ 0xDF then "KATAKANA_HALFWIDTH"
  else if 0xFF < sjis_code then
    if sjis_code ∈ problem_chars then "PROBLEM"
    else
      let row := (sjis_to_row_col sjis_code).1
      if 1 ≤ row ∧ row ≤ 2 then "PUNCTUATION"
      else if row = 3 then "ALPHANUMERIC"
      else if row = 4 then "HIRAGANA_FULLWIDTH"
      else if row = 5 then "KATAKANA_FULLWIDTH"
      else if row = 6 then "GREEK"
      else if row = 7 then "CYRILLIC"
      else if row = 8 then "BOX_DRAWING"
      else if 16 ≤ row ∧ row ≤ 47 then "KANJI_LEVEL1"
      else if 48 ≤ row ∧ row ≤ 84 then "KANJI_LEVEL2"
      else "OTHER"
  else "OTHER"

/-- The `descriptions` dictionary of `get_description` (source lines
137-147): explicit per-code description text. -/
def special_descriptions (sjis_code : Nat) : Option String :=
  if sjis_code = 0x5C then some "YEN SIGN / BACKSLASH"
  else if sjis_code = 0x7E then some "OVERLINE / TILDE"
  else if sjis_code = 0x815C then some "EM DASH"
  else if sjis_code = 0x8160 then some "WAVE DASH / FULLWIDTH TILDE"
  else if sjis_code = 0x8161 then some "DOUBLE VERTICAL LINE"
  else if sjis_code = 0x817C then some "MINUS SIGN / FULLWIDTH HYPHEN-MINUS"
  else if sjis_code = 0x8191 then some "CENT SIGN"
  else if sjis_code = 0x8192 then some "POUND SIGN"
  else if sjis_code = 0x81CA then some "NOT SIGN"
  else none

/-- The `category_names` dictionary of `get_description` (source lines
152-164). -/
def category_names (category : String) : Option String :=
  if category = "ASCII" then some "ASCII character"
  else if category = "KATAKANA_HALFWIDTH" then some "Halfwidth Katakana (SJIS:0xA1-0xDF U+FF61-FF9F)"
  else if category = "PUNCTUATION" then some "Punctuation/Symbol"
  else if category = "ALPHANUMERIC" then some "Fullwidth Alphanumeric"
  else if category = "HIRAGANA_FULLWIDTH" then some "Fullwidth Hiragana (SJIS:0x829F-0x82F1 U+3041-3093)"
  else if category = "KATAKANA_FULLWIDTH" then some "Fullwidth Katakana (SJIS:0x8340-0x8396 U+30A1-30F6)"
  else if category = "GREEK" then some "Greek letter"
  else if category = "CYRILLIC" then some "Cyrillic letter"
  else if category = "BOX_DRAWING" then some "Box drawing character"
  else if category = "KANJI_LEVEL1" then some "JIS Level 1 Kanji"
  else if category = "KANJI_LEVEL2" then some "JIS Level 2 Kanji"
  else none

/-- `get_description` (source lines 128-166).  The `char` and `for_sjis`
parameters of the Python function are never read in its body, so they are
dropped here. -/
def get_description (sjis_code : Nat) (category : String) : String :=
  match special_descriptions sjis_code with
  | some d => d
  | none => (category_names category).getD "Other character"

/-- The platform text decoder the tool delegates to (`bytes.decode('cp932')`
in the source): a 1- or 2-byte sequence either decodes to a single Unicode
scalar or fails (`UnicodeDecodeError`).  cp932 decodes every successful
sequence the tool submits to exactly one scalar. -/
def Codec : Type := List Nat → Option Char

/-- One row of the table as built by `generate_test_data` (source dict
literals, e.g. lines 184-193), before the sequential `id` is attached.
`code` is the legacy code point itself (the loop variable `sjis_code`),
from which the `sjis_hex` field is formatted. -/
structure PreRec where
  code : Nat
  sjis_hex : String
  char : Char
  utf8_hex : String
  unicode : String
  category : String
  description : String
  description_sjis : String
  deriving Repr, DecidableEq

/-- A finished row: a `PreRec` together with its sequential `id`. -/
structure Record extends PreRec where
  id : Nat
  deriving Repr, DecidableEq

/-- The common dict literal appended by every pass: `sjis_hex` is the code
formatted with `width` hex digits (`02X` for single-byte passes, `04X` for
double-byte passes), `utf8_hex` is `char.encode('utf-8').hex().upper()`,
`unicode` is `f'U+{ord(char):04X}'`, and both description fields receive
the same `desc` value. -/
def mkPre (code width : Nat) (ch : Char) (category desc : String) : PreRec :=
  { code := code
    sjis_hex := padHex width code
    char := ch
    utf8_hex := bytesHexUpper (utf8EncodeChar ch)
    unicode := "U+" ++ padHex 4 ch.toNat
    category := category
    description := desc
    description_sjis := desc }

/-- The two bytes `bytes([(sjis_code >> 8) & 0xFF, sjis_code & 0xFF])`
(source line 178). -/
def doubleBytes (code : Nat) : List Nat := [code / 256 % 256, code % 256]

/-- The byte sequence a code point denotes: one byte for single-byte codes,
two for double-byte codes. -/
def legacy_bytes (code : Nat) : List Nat :=
  if code ≤ 0xFF then [code] else doubleBytes code

/-- Pass 1 body (source lines 176-196): decode a problem character and
build its row; on decode failure no row is produced. -/
def build_problem (dec : Codec) (code : Nat) : Option PreRec :=
  (dec (doubleBytes code)).map fun ch =>
    mkPre code 4 ch "PROBLEM" (get_description code "PROBLEM")

/-- Pass 2 body (source lines 199-219): the single-byte specials 0x5C and
0x7E. -/
def build_special (dec : Codec) (code : Nat) : Option PreRec :=
  (dec [code]).map fun ch =>
    mkPre code 2 ch "SPECIAL_SINGLE" (get_description code "SPECIAL_SINGLE")

/-- Pass 3 body (source lines 225-242): printable ASCII.  The source uses
`chr(sjis_code)` directly (no codec call), and nothing in the body can
raise, so a row is always produced. -/
def build_ascii (code : Nat) : Option PreRec :=
  some (mkPre code 2 (Char.ofNat code) "ASCII" (get_description code "ASCII"))

/-- Pass 4 body (source lines 246-264): halfwidth katakana. -/
def build_katakana (dec : Codec) (code : Nat) : Option PreRec :=
  (dec [code]).map fun ch =>
    mkPre code 2 ch "KATAKANA_HALFWIDTH" (get_description code "KATAKANA_HALFWIDTH")

/-- Pass 5 body (source lines 273-309): one double-byte candidate.  The
three static skips (`processed_problem`, `is_valid_sjis_doublebyte`,
`is_pua_character`) happen before the codec is consulted. -/
def build_double (dec : Codec) (high low : Nat) : Option PreRec :=
  let code := high * 256 + low
  if code ∈ problem_chars then none
  else if ¬ is_valid_sjis_doublebyte code then none
  else if is_pua_character code then none
  else (dec [high, low]).map fun ch =>
    mkPre code 4 ch (get_category code) (get_description code (get_category code))

/-- Pass 2 candidate codes (source line 199). -/
def special_codes : List Nat := [0x5C, 0x7E]

/-- Pass 3 candidate codes: `range(0x20, 0x80)` minus `[0x5C, 0x7E, 0x7F]`
(source lines 222-224). -/
def ascii_codes : List Nat :=
  (List.range' 0x20 0x60).filter (fun c => c != 0x5C && c != 0x7E && c != 0x7F)

/-- Pass 4 candidate codes: `range(0xA1, 0xE0)` (source line 245). -/
def katakana_codes : List Nat := List.range' 0xA1 0x3F

/-- Pass 5 lead bytes: `list(range(0x81, 0xA0)) + list(range(0xE0, 0xFD))`
(source line 272). -/
def lead_bytes : List Nat := List.range' 0x81 0x1F ++ List.range' 0xE0 0x1D

/-- Pass 5 trail bytes: `list(range(0x40, 0x7F)) + list(range(0x80, 0xFD))`
(source line 273). -/
def trail_bytes : List Nat := List.range' 0x40 0x3F ++ List.range' 0x80 0x7D

/-- The rows of all five passes in emission order, before `id` assignment
(source lines 169-311). -/
def pre_records (dec : Codec) : List PreRec :=
  problem_chars.filterMap (build_problem dec)
  ++ special_codes.filterMap (build_special dec)
  ++ ascii_codes.filterMap build_ascii
  ++ katakana_codes.filterMap (build_katakana dec)
  ++ lead_bytes.flatMap (fun high => trail_bytes.filterMap (fun low => build_double dec high low))

/-- Attach sequential ids starting at `n`: the source's `id_counter` starts
at 1 and is incremented exactly when a row is appended. -/
def stamp : Nat → List PreRec → List Record
  | _, [] => []
  | n, p :: ps => { toPreRec := p, id := n } :: stamp (n + 1) ps

/-- `generate_test_data` (source lines 169-311): the full table. -/
def generate_test_data (dec : Codec) : List Record :=
  stamp 1 (pre_records dec)

/-- Modelled from the spec (and the documented Windows-31J tables): the
platform cp932 codec, which is not part of the repository, restricted to
the single-byte sequences the tool decodes.  Bytes 0x20-0x7F map to the
identical ASCII scalar (in particular 0x5C to U+005C REVERSE SOLIDUS and
0x7E to U+007E TILDE); bytes 0xA1-0xDF map to halfwidth katakana
U+FF61-U+FF9F.  Double-byte sequences are conservatively mapped to `none`
(only single-byte decodings are relied on by any theorem below). -/
def cp932_single_byte_model : Codec := fun bs =>
  match bs with
  | [b] =>
      if 0x20 ≤ b ∧ b ≤ 0x7F then some (Char.ofNat b)
      else if 0xA1 ≤ b ∧ b ≤ 0xDF then some (Char.ofNat (0xFF61 + (b - 0xA1)))
      else none
  | _ => none

/-! ## Per-candidate exception handling

Each pass wraps its body in `try`/`except`.  The body of a pass either
builds its row, raises a codec error (`UnicodeDecodeError` /
`UnicodeEncodeError`), or raises some other exception; the `except`
clauses decide what is appended and what is printed. -/

/-- Outcome of one pass body for one candidate code.  `codecFailure` is a
`UnicodeDecodeError`/`UnicodeEncodeError` (the expected outcome for
undecodable candidates); `otherFailure` is any other exception, carrying
its message `str(e)`. -/
inductive StepOutcome where
  | ok (r : PreRec)
  | codecFailure (msg : String)
  | otherFailure (msg : String)
  deriving Repr, DecidableEq

/-- Pass 1 `except` clause (source lines 195-196): every exception is
caught and printed as `f"Error processing problem char 0x{code:04X}: {e}"`;
enumeration continues.  Returns (row appended, lines printed). -/
def handle_problem_char (code : Nat) : StepOutcome → Option PreRec × List String
  | .ok r => (some r, [])
  | .codecFailure e => (none, ["Error processing problem char 0x" ++ padHex 4 code ++ ": " ++ e])
  | .otherFailure e => (none, ["Error processing problem char 0x" ++ padHex 4 code ++ ": " ++ e])

/-- Pass 2 `except` clause (source lines 218-219). -/
def handle_single_byte (code : Nat) : StepOutcome → Option PreRec × List String
  | .ok r => (some r, [])
  | .codecFailure e => (none, ["Error processing single byte 0x" ++ padHex 2 code ++ ": " ++ e])
  | .otherFailure e => (none, ["Error processing single byte 0x" ++ padHex 2 code ++ ": " ++ e])

/-- Pass 5 `except` clauses (source lines 304-309):
`except (UnicodeDecodeError, UnicodeEncodeError): pass` and
`except Exception as e: pass`.  Neither branch prints anything — the
second branch's comment says "Other errors, log and continue", but its
body is only `pass`. -/
def handle_doublebyte (_code : Nat) : StepOutcome → Option PreRec × List String
  | .ok r => (some r, [])
  | .codecFailure _ => (none, [])
  | .otherFailure _ => (none, [])

/-! ## Emitters -/

/-- HTML escaping of the character cell (source lines 391-399 and
473-481): exactly the four characters `<`, `>`, `&`, `"` are replaced by
their entity forms; anything else is inserted verbatim. -/
def char_display (c : Char) : String :=
  if c = '<' then "&lt;"
  else if c = '>' then "&gt;"
  else if c = '&' then "&amp;"
  else if c = '"' then "&quot;"
  else String.singleton c

/-- The `<tr>` class attribute (source lines 384-388 and 467-471): rows of
category `PROBLEM` and `SPECIAL_SINGLE` are marked; every other row gets
the empty string. -/
def row_class (category : String) : String :=
  if category = "PROBLEM" then "class=\"problem\""
  else if category = "SPECIAL_SINGLE" then "class=\"special\""
  else ""

/-- One table row of `write_html_utf8` (source lines 401-410), with the
Unicode-context description. -/
def html_row_utf8 (r : Record) : String :=
  "        <tr " ++ row_class r.category ++ ">\n            <td>" ++ toString r.id
  ++ "</td>\n            <td>" ++ r.sjis_hex
  ++ "</td>\n            <td class=\"char-cell\">" ++ char_display r.char
  ++ "</td>\n            <td>" ++ r.utf8_hex
  ++ "</td>\n            <td>" ++ r.unicode
  ++ "</td>\n            <td>" ++ r.category
  ++ "</td>\n            <td>" ++ r.description
  ++ "</td>\n        </tr>\n"

/-- One table row of `write_html_sjis` (source lines 486-495): identical
shape, but the description cell uses `row.get('description_sjis', ...)`
(source line 484). -/
def html_row_sjis (r : Record) : String :=
  "        <tr " ++ row_class r.category ++ ">\n            <td>" ++ toString r.id
  ++ "</td>\n            <td>" ++ r.sjis_hex
  ++ "</td>\n            <td class=\"char-cell\">" ++ char_display r.char
  ++ "</td>\n            <td>" ++ r.utf8_hex
  ++ "</td>\n            <td>" ++ r.unicode
  ++ "</td>\n            <td>" ++ r.category
  ++ "</td>\n            <td>" ++ r.description_sjis
  ++ "</td>\n        </tr>\n"

/-- One data line of the Shift-JIS CSV (source lines 330-335): the same
seven columns as the UTF-8 CSV, with the description column replaced by
`description_sjis`.  (The `csv` module's quoting of delimiter/quote
characters is a platform library concern and is not modelled; no claim
depends on it.) -/
def csv_row_sjis (r : Record) : String :=
  toString r.id ++ "," ++ r.sjis_hex ++ "," ++ String.singleton r.char ++ ","
  ++ r.utf8_hex ++ "," ++ r.unicode ++ "," ++ r.category ++ "," ++ r.description_sjis ++ "\r\n"

/-- The text content written to `test_data_sjis.csv` (source lines
324-341): header line then one line per row. -/
def csv_sjis_content (data : List Record) : String :=
  "id,sjis_hex,char,utf8_hex,unicode,category,description\r\n"
  ++ String.join (data.map csv_row_sjis)

/-- The text content written to `verify_sjis.html`: the per-row fragment
of `write_html_sjis` (the constant page template around it carries no
record data and is omitted). -/
def html_sjis_content (data : List Record) : String :=
  String.join (data.map html_row_sjis)

/-- Modelled from the spec: a platform character encoder for the legacy
codec — `enc c = none` when `c` has no cp932 representation (what makes
Python raise `UnicodeEncodeError` under `errors='strict'`). -/
def Encoder : Type := Char → Option (List Nat)

/-- Modelled from the spec: Python's strict-mode encoding of a string —
the whole write raises (returns `none`) as soon as any character is
unencodable. -/
def encodeStrict (enc : Encoder) : List Char → Option (List Nat)
  | [] => some []
  | c :: cs =>
      match enc c, encodeStrict enc cs with
      | some bs, some rest => some (bs ++ rest)
      | _, _ => none

/-- Modelled from the spec: Python's `errors='replace'` encoding — an
unencodable character is replaced by the substitution marker `?` (byte
0x3F), and the write always completes. -/
def encodeReplace (enc : Encoder) (s : List Char) : List Nat :=
  s.flatMap (fun c => (enc c).getD [0x3F])

/-- The bytes `write_csv_sjis` puts on disk: the file is opened with
`encoding=SJIS_ENCODING, errors='replace'` (source line 327), so the whole
content is encoded in replace mode. -/
def write_csv_sjis_bytes (enc : Encoder) (data : List Record) : List Nat :=
  encodeReplace enc (csv_sjis_content data).data

/-- The bytes `write_html_sjis` puts on disk: the file is opened with
`encoding=SJIS_ENCODING, errors='replace'` (source line 507). -/
def write_html_sjis_bytes (enc : Encoder) (data : List Record) : List Nat :=
  encodeReplace enc (html_sjis_content data).data

/-! ## Claim-side definitions (worded from the specification) -/

/-- The JIS row number as the specification words it: `(high_byte −
0x81)×2 + 1` when the lead byte is at most 0x9F and `(high_byte −
0xC1)×2 + 1` otherwise, plus one more when the trail byte exceeds 0x9E. -/
def claim_row (code : Nat) : Int :=
  let high : Int := code / 256 % 256
  let low : Int := code % 256
  let base : Int := if high ≤ 0x9F then (high - 0x81) * 2 + 1 else (high - 0xC1) * 2 + 1
  if low > 0x9E then base + 1 else base

/-- The category selection as the specification words it: fixed numeric
bands over the row number. -/
def claim_category (code : Nat) : String :=
  let row := claim_row code
  if 1 ≤ row ∧ row ≤ 2 then "PUNCTUATION"
  else if row = 3 then "ALPHANUMERIC"
  else if row = 4 then "HIRAGANA_FULLWIDTH"
  else if row = 5 then "KATAKANA_FULLWIDTH"
  else if row = 6 then "GREEK"
  else if row = 7 then "CYRILLIC"
  else if row = 8 then "BOX_DRAWING"
  else if 16 ≤ row ∧ row ≤ 47 then "KANJI_LEVEL1"
  else if 48 ≤ row ∧ row ≤ 84 then "KANJI_LEVEL2"
  else "OTHER"

/-- The static part of the pass-5 filter chain: the code a candidate
lead/trail pair contributes if it survives the three skips that precede
the codec call. -/
def double_candidate (high low : Nat) : Option Nat :=
  let code := high * 256 + low
  if code ∈ problem_chars then none
  else if ¬ is_valid_sjis_doublebyte code then none
  else if is_pua_character code then none
  else some code

/-- All pass-5 codes that reach the codec, in enumeration order. -/
def double_codes : List Nat :=
  lead_bytes.flatMap (fun high => trail_bytes.filterMap (double_candidate high))

/-- A minimal decoder used to instantiate codec-parametric theorems in
witnesses: it decodes only the single byte 0x5C (to U+005C, as cp932
does) and fails on everything else. -/
def dec5C : Codec := fun bs =>
  if bs = [0x5C] then some (Char.ofNat 0x5C) else none

/-- The first row of the table generated with `dec5C` (pass 1 produces
nothing under that decoder, so the pass-2 row for 0x5C comes first, with
id 1).  Used to instantiate membership hypotheses in witnesses. -/
def rec5C : Record :=
  { code := 0x5C
    sjis_hex := "5C"
    char := '\\'
    utf8_hex := "5C"
    unicode := "U+005C"
    category := "SPECIAL_SINGLE"
    description := "YEN SIGN / BACKSLASH"
    description_sjis := "YEN SIGN / BACKSLASH"
    id := 1 }

/-- A plain ASCII row (the pass-3 row for 0x41), used to instantiate
record-parametric theorems in witnesses. -/
def recA : Record :=
  { code := 0x41
    sjis_hex := "41"
    char := 'A'
    utf8_hex := "41"
    unicode := "U+0041"
    category := "ASCII"
    description := "ASCII character"
    description_sjis := "ASCII character"
    id := 1 }

/-! ## Helper lemmas -/

theorem mkPre_code (c w : Nat) (ch : Char) (cat d : String) : (mkPre c w ch cat d).code = c := rfl

theorem mkPre_description_eq (c w : Nat) (ch : Char) (cat d : String) :
    (mkPre c w ch cat d).description = (mkPre c w ch cat d).description_sjis := rfl

theorem stamp_length (n : Nat) (l : List PreRec) : (stamp n l).length = l.length := by
  induction l generalizing n with
  | nil => rfl
  | cons p ps ih => simp [stamp, ih]

theorem stamp_map_id (n : Nat) (l : List PreRec) :
    (stamp n l).map (fun r => r.id) = List.range' n l.length := by
  induction l generalizing n with
  | nil => rfl
  | cons p ps ih => simp [stamp, List.range', ih]

theorem stamp_map_code (n : Nat) (l : List PreRec) :
    (stamp n l).map (fun r => r.code) = l.map (fun p => p.code) := by
  induction l generalizing n with
  | nil => rfl
  | cons p ps ih => simp [stamp, ih]

theorem mem_stamp {n : Nat} {l : List PreRec} {r : Record} (h : r ∈ stamp n l) :
    r.toPreRec ∈ l := by
  induction l generalizing n with
  | nil => cases h
  | cons p ps ih =>
      rcases List.mem_cons.1 h with h' | h'
      · subst h'; exact List.mem_cons_self _ _
      · exact List.mem_cons_of_mem _ (ih h')

theorem mem_stamp_of_mem {l : List PreRec} {p : PreRec} (n : Nat) (h : p ∈ l) :
    ∃ k, ({ toPreRec := p, id := k } : Record) ∈ stamp n l := by
  induction l generalizing n with
  | nil => cases h
  | cons q qs ih =>
      rcases List.mem_cons.1 h with h' | h'
      · subst h'; exact ⟨n, List.mem_cons_self _ _⟩
      · obtain ⟨k, hk⟩ := ih (n + 1) h'
        exact ⟨k, List.mem_cons_of_mem _ hk⟩

theorem map_filterMap_sublist {α β γ : Type} (f : α → Option γ) (cf : γ → β) (g : α → β)
    (hfg : ∀ a r, f a = some r → cf r = g a) :
    ∀ l : List α, ((l.filterMap f).map cf).Sublist (l.map g)
  | [] => List.Sublist.refl _
  | a :: l => by
      cases hfa : f a with
      | none =>
          simp only [List.filterMap_cons, hfa, List.map_cons]
          exact (map_filterMap_sublist f cf g hfg l).cons _
      | some r =>
          simp only [List.filterMap_cons, hfa, List.map_cons, hfg a r hfa]
          exact (map_filterMap_sublist f cf g hfg l).cons₂ _

theorem map_filterMap_sublist_filterMap {α β γ : Type} (f : α → Option γ) (cf : γ → β)
    (g : α → Option β) (hfg : ∀ a r, f a = some r → g a = some (cf r)) :
    ∀ l : List α, ((l.filterMap f).map cf).Sublist (l.filterMap g)
  | [] => List.Sublist.refl _
  | a :: l => by
      cases hfa : f a with
      | none =>
          simp only [List.filterMap_cons, hfa]
          cases hga : g a with
          | none => exact map_filterMap_sublist_filterMap f cf g hfg l
          | some b => exact (map_filterMap_sublist_filterMap f cf g hfg l).cons _
      | some r =>
          simp only [List.filterMap_cons, hfa, List.map_cons, hfg a r hfa]
          exact (map_filterMap_sublist_filterMap f cf g hfg l).cons₂ _

theorem flatMap_sublist {α β : Type} {f g : α → List β} (h : ∀ a, (f a).Sublist (g a)) :
    ∀ l : List α, (l.flatMap f).Sublist (l.flatMap g)
  | [] => List.Sublist.refl _
  | a :: l => by
      simp only [List.flatMap_cons]
      exact (h a).append (flatMap_sublist h l)

theorem map_flatMap_eq {α β γ : Type} (f : α → List β) (m : β → γ) :
    ∀ l : List α, (l.flatMap f).map m = l.flatMap (fun a => (f a).map m)
  | [] => rfl
  | a :: l => by
      simp only [List.flatMap_cons, List.map_append, map_flatMap_eq f m l]

theorem nodup_flatMap_of {α β : Type} {f : α → List β} {l : List α} (hl : l.Nodup)
    (hinner : ∀ a ∈ l, (f a).Nodup)
    (hdisj : ∀ a ∈ l, ∀ b ∈ l, a ≠ b → ∀ x ∈ f a, x ∉ f b) :
    (l.flatMap f).Nodup := by
  induction l with
  | nil => exact List.nodup_nil
  | cons a l ih =>
      rw [List.flatMap_cons, List.nodup_append]
      refine ⟨hinner a (List.mem_cons_self _ _), ?_, ?_⟩
      · exact ih (List.Nodup.of_cons hl)
          (fun b hb => hinner b (List.mem_cons_of_mem _ hb))
          (fun b hb c hc hbc => hdisj b (List.mem_cons_of_mem _ hb) c (List.mem_cons_of_mem _ hc) hbc)
      · intro x hx hx'
        obtain ⟨b, hb, hxb⟩ := List.mem_flatMap.1 hx'
        have hab : a ≠ b := by
          rintro rfl
          exact (List.nodup_cons.1 hl).1 hb
        exact hdisj a (List.mem_cons_self _ _) b (List.mem_cons_of_mem _ hb) hab x hx hxb

/-! ### Builder inversion lemmas -/

theorem build_problem_some {dec : Codec} {c : Nat} {r : PreRec}
    (h : build_problem dec c = some r) :
    ∃ ch, dec (doubleBytes c) = some ch ∧
      r = mkPre c 4 ch "PROBLEM" (get_description c "PROBLEM") := by
  obtain ⟨ch, hch, hr⟩ := Option.map_eq_some'.1 h
  exact ⟨ch, hch, hr.symm⟩

theorem build_special_some {dec : Codec} {c : Nat} {r : PreRec}
    (h : build_special dec c = some r) :
    ∃ ch, dec [c] = some ch ∧
      r = mkPre c 2 ch "SPECIAL_SINGLE" (get_description c "SPECIAL_SINGLE") := by
  obtain ⟨ch, hch, hr⟩ := Option.map_eq_some'.1 h
  exact ⟨ch, hch, hr.symm⟩

theorem build_ascii_some {c : Nat} {r : PreRec} (h : build_ascii c = some r) :
    r = mkPre c 2 (Char.ofNat c) "ASCII" (get_description c "ASCII") := by
  simpa [build_ascii, eq_comm] using h

theorem build_katakana_some {dec : Codec} {c : Nat} {r : PreRec}
    (h : build_katakana dec c = some r) :
    ∃ ch, dec [c] = some ch ∧
      r = mkPre c 2 ch "KATAKANA_HALFWIDTH" (get_description c "KATAKANA_HALFWIDTH") := by
  obtain ⟨ch, hch, hr⟩ := Option.map_eq_some'.1 h
  exact ⟨ch, hch, hr.symm⟩

theorem build_double_some {dec : Codec} {hi lo : Nat} {r : PreRec}
    (h : build_double dec hi lo = some r) :
    (hi * 256 + lo) ∉ problem_chars ∧
    is_valid_sjis_doublebyte (hi * 256 + lo) = true ∧
    is_pua_character (hi * 256 + lo) = false ∧
    ∃ ch, dec [hi, lo] = some ch ∧
      r = mkPre (hi * 256 + lo) 4 ch (get_category (hi * 256 + lo))
        (get_description (hi * 256 + lo) (get_category (hi * 256 + lo))) := by
  simp only [build_double] at h
  split at h
  · cases h
  · split at h
    · cases h
    · split at h
      · cases h
      · rename_i h1 h2 h3
        obtain ⟨ch, hch, hr⟩ := Option.map_eq_some'.1 h
        refine ⟨h1, ?_, ?_, ch, hch, hr.symm⟩
        · simpa using h2
        · simpa using h3

theorem build_double_candidate {dec : Codec} {hi lo : Nat} {r : PreRec}
    (h : build_double dec hi lo = some r) :
    double_candidate hi lo = some r.code := by
  obtain ⟨h1, h2, h3, ch, hch, hr⟩ := build_double_some h
  subst hr
  unfold double_candidate
  rw [if_neg h1, if_neg (by simp [h2]), if_neg (by simp [h3]), mkPre_code]

theorem double_candidate_some {hi lo c : Nat} (h : double_candidate hi lo = some c) :
    c = hi * 256 + lo ∧ c ∉ problem_chars ∧ is_pua_character c = false := by
  simp only [double_candidate] at h
  split at h
  · cases h
  · split at h
    · cases h
    · split at h
      · cases h
      · rename_i h1 _ h3
        cases h
        exact ⟨rfl, h1, by simpa using h3⟩

/-! ### Candidate list facts -/

theorem mem_ascii_codes {c : Nat} (h : c ∈ ascii_codes) :
    0x20 ≤ c ∧ c < 0x80 ∧ c ≠ 0x5C ∧ c ≠ 0x7E ∧ c ≠ 0x7F := by
  rw [ascii_codes, List.mem_filter] at h
  obtain ⟨hm, hf⟩ := h
  rw [List.mem_range'_1] at hm
  simp only [Bool.and_eq_true, bne_iff_ne] at hf
  exact ⟨hm.1, by omega, hf.1.1, hf.1.2, hf.2⟩

theorem mem_katakana_codes {c : Nat} (h : c ∈ katakana_codes) :
    0xA1 ≤ c ∧ c ≤ 0xDF := by
  rw [katakana_codes, List.mem_range'_1] at h
  omega

theorem mem_lead_bytes {h : Nat} (hm : h ∈ lead_bytes) :
    (0x81 ≤ h ∧ h ≤ 0x9F) ∨ (0xE0 ≤ h ∧ h ≤ 0xFC) := by
  rw [lead_bytes, List.mem_append, List.mem_range'_1, List.mem_range'_1] at hm
  omega

theorem mem_trail_bytes {l : Nat} (hm : l ∈ trail_bytes) :
    (0x40 ≤ l ∧ l ≤ 0x7E) ∨ (0x80 ≤ l ∧ l ≤ 0xFC) := by
  rw [trail_bytes, List.mem_append, List.mem_range'_1, List.mem_range'_1] at hm
  omega

theorem mem_double_codes {c : Nat} (h : c ∈ double_codes) :
    0x8140 ≤ c ∧ c ≤ 0xFCFC ∧ c ∉ problem_chars ∧ is_pua_character c = false := by
  rw [double_codes, List.mem_flatMap] at h
  obtain ⟨hi, hhi, hmem⟩ := h
  obtain ⟨lo, hlo, hdc⟩ := List.mem_filterMap.1 hmem
  obtain ⟨hc, hnp, hpua⟩ := double_candidate_some hdc
  have h1 := mem_lead_bytes hhi
  have h2 := mem_trail_bytes hlo
  subst hc
  refine ⟨by omega, by omega, hnp, hpua⟩

theorem ascii_codes_nodup : ascii_codes.Nodup :=
  ((List.nodup_range' 0x20 0x60).filter _)

theorem katakana_codes_nodup : katakana_codes.Nodup := List.nodup_range' 0xA1 0x3F

theorem lead_bytes_nodup : lead_bytes.Nodup := by
  rw [lead_bytes, List.nodup_append]
  refine ⟨List.nodup_range' _ _, List.nodup_range' _ _, ?_⟩
  intro a ha hb
  rw [List.mem_range'_1] at ha hb
  omega

theorem trail_bytes_nodup : trail_bytes.Nodup := by
  rw [trail_bytes, List.nodup_append]
  refine ⟨List.nodup_range' _ _, List.nodup_range' _ _, ?_⟩
  intro a ha hb
  rw [List.mem_range'_1] at ha hb
  omega

theorem double_codes_nodup : double_codes.Nodup := by
  rw [double_codes]
  refine nodup_flatMap_of lead_bytes_nodup ?_ ?_
  · intro hi _
    have hsub : (trail_bytes.filterMap (double_candidate hi)).Sublist
        (trail_bytes.map (fun lo => hi * 256 + lo)) := by
      have := map_filterMap_sublist (double_candidate hi) (fun c => c)
        (fun lo => hi * 256 + lo)
        (fun lo c hc => (double_candidate_some hc).1) trail_bytes
      simpa using this
    refine hsub.nodup (List.Nodup.map ?_ trail_bytes_nodup)
    intro a b hab
    simp only at hab
    omega
  · intro a ha b hb hab x hxa hxb
    obtain ⟨la, hla, hca⟩ := List.mem_filterMap.1 hxa
    obtain ⟨lb, hlb, hcb⟩ := List.mem_filterMap.1 hxb
    have h1 := (double_candidate_some hca).1
    have h2 := (double_candidate_some hcb).1
    have h3 := mem_trail_bytes hla
    have h4 := mem_trail_bytes hlb
    apply hab
    omega

theorem mem_problem_chars_bounds {c : Nat} (h : c ∈ problem_chars) :
    0x815C ≤ c ∧ c ≤ 0x81CA := by
  simp only [problem_chars, List.mem_cons, List.not_mem_nil, or_false] at h
  rcases h with rfl | rfl | rfl | rfl | rfl | rfl | rfl <;> omega

theorem mem_special_codes {c : Nat} (h : c ∈ special_codes) : c = 0x5C ∨ c = 0x7E := by
  simpa [special_codes] using h

theorem build_problem_code {dec : Codec} {c : Nat} {r : PreRec}
    (h : build_problem dec c = some r) : r.code = c := by
  obtain ⟨ch, _, hr⟩ := build_problem_some h
  rw [hr, mkPre_code]

theorem build_special_code {dec : Codec} {c : Nat} {r : PreRec}
    (h : build_special dec c = some r) : r.code = c := by
  obtain ⟨ch, _, hr⟩ := build_special_some h
  rw [hr, mkPre_code]

theorem build_ascii_code {c : Nat} {r : PreRec} (h : build_ascii c = some r) : r.code = c := by
  rw [build_ascii_some h, mkPre_code]

theorem build_katakana_code {dec : Codec} {c : Nat} {r : PreRec}
    (h : build_katakana dec c = some r) : r.code = c := by
  obtain ⟨ch, _, hr⟩ := build_katakana_some h
  rw [hr, mkPre_code]

/-- The codes of the emitted rows form a sublist of the statically
enumerated candidate codes, pass by pass. -/
theorem pre_codes_sublist (dec : Codec) :
    ((pre_records dec).map (fun p => p.code)).Sublist
      (problem_chars ++ special_codes ++ ascii_codes ++ katakana_codes ++ double_codes) := by
  rw [pre_records]
  simp only [List.map_append]
  refine List.Sublist.append (List.Sublist.append (List.Sublist.append (List.Sublist.append ?_ ?_) ?_) ?_) ?_
  · simpa using map_filterMap_sublist (build_problem dec) (fun p => p.code) (fun c => c)
      (fun a r h => build_problem_code h) problem_chars
  · simpa using map_filterMap_sublist (build_special dec) (fun p => p.code) (fun c => c)
      (fun a r h => build_special_code h) special_codes
  · simpa using map_filterMap_sublist build_ascii (fun p => p.code) (fun c => c)
      (fun a r h => build_ascii_code h) ascii_codes
  · simpa using map_filterMap_sublist (build_katakana dec) (fun p => p.code) (fun c => c)
      (fun a r h => build_katakana_code h) katakana_codes
  · rw [map_flatMap_eq, double_codes]
    refine flatMap_sublist (fun hi => ?_) lead_bytes
    exact map_filterMap_sublist_filterMap (build_double dec hi) (fun p => p.code)
      (double_candidate hi) (fun lo r h => build_double_candidate h) trail_bytes

set_option maxRecDepth 40000 in
/-- The statically enumerated candidate codes of the five passes are
pairwise distinct: the four single-byte/problem segments are small
explicit ranges, and the double-byte segment excludes the problem codes. -/
theorem all_codes_nodup :
    (problem_chars ++ special_codes ++ ascii_codes ++ katakana_codes ++ double_codes).Nodup := by
  rw [List.nodup_append]
  refine ⟨by decide, double_codes_nodup, ?_⟩
  intro a ha hb
  have hnd := mem_double_codes hb
  rcases List.mem_append.1 ha with ha | ha
  · rcases List.mem_append.1 ha with ha | ha
    · rcases List.mem_append.1 ha with ha | ha
      · exact hnd.2.2.1 ha
      · have h1 := mem_special_codes ha
        omega
    · have h1 := mem_ascii_codes ha
      omega
  · have h1 := mem_katakana_codes ha
    omega

theorem mem_of_head?_eq {α : Type} {l : List α} {a : α} (h : l.head? = some a) : a ∈ l := by
  cases l with
  | nil => cases h
  | cons b t =>
      rw [List.head?_cons, Option.some.injEq] at h
      rw [h]
      exact List.mem_cons_self _ _

/-- Every pre-record of every pass is an `mkPre` literal. -/
theorem pre_records_mkPre {dec : Codec} {p : PreRec} (h : p ∈ pre_records dec) :
    ∃ c w ch cat d, p = mkPre c w ch cat d := by
  rw [pre_records] at h
  rcases List.mem_append.1 h with h | h
  · rcases List.mem_append.1 h with h | h
    · rcases List.mem_append.1 h with h | h
      · rcases List.mem_append.1 h with h | h
        · obtain ⟨c, _, hb⟩ := List.mem_filterMap.1 h
          obtain ⟨ch, _, hp⟩ := build_problem_some hb
          exact ⟨c, 4, ch, _, _, hp⟩
        · obtain ⟨c, _, hb⟩ := List.mem_filterMap.1 h
          obtain ⟨ch, _, hp⟩ := build_special_some hb
          exact ⟨c, 2, ch, _, _, hp⟩
      · obtain ⟨c, _, hb⟩ := List.mem_filterMap.1 h
        exact ⟨c, 2, Char.ofNat c, _, _, build_ascii_some hb⟩
    · obtain ⟨c, _, hb⟩ := List.mem_filterMap.1 h
      obtain ⟨ch, _, hp⟩ := build_katakana_some hb
      exact ⟨c, 2, ch, _, _, hp⟩
  · obtain ⟨hi, _, hmem⟩ := List.mem_flatMap.1 h
    obtain ⟨lo, _, hb⟩ := List.mem_filterMap.1 hmem
    obtain ⟨_, _, _, ch, _, hp⟩ := build_double_some hb
    exact ⟨hi * 256 + lo, 4, ch, _, _, hp⟩

/-! ## Claim theorems -/

/-- C5: the `id` fields of the table returned by `generate_test_data` are
exactly the contiguous integers 1 through N in emission order, where N is
the number of records. -/
theorem generate_test_data_ids (dec : Codec) :
    (generate_test_data dec).map (fun r => r.id)
      = List.range' 1 (generate_test_data dec).length := by
  rw [generate_test_data, stamp_map_id, stamp_length]

/-- C6: no two records of the table share the same legacy code: the 7
problem codes emitted in pass 1 are skipped in the double-byte pass, and
the passes cover pairwise disjoint code ranges. -/
theorem generate_test_data_codes_nodup (dec : Codec) :
    ((generate_test_data dec).map (fun r => r.code)).Nodup := by
  rw [generate_test_data, stamp_map_code]
  exact all_codes_nodup.sublist (pre_codes_sublist dec)

/-- C7: no record of the final table has a legacy code whose high byte
lies in the private-use lead-byte range 0xF0-0xF9 (the `is_pua_character`
test); such candidates are filtered out before the codec is consulted. -/
theorem generate_test_data_no_pua (dec : Codec) :
    ∀ r ∈ generate_test_data dec, is_pua_character r.code = false := by
  intro r hr
  have hp : r.code ∈ problem_chars ++ special_codes ++ ascii_codes ++ katakana_codes ++ double_codes :=
    (pre_codes_sublist dec).subset (List.mem_map_of_mem _ (mem_stamp hr))
  rcases List.mem_append.1 hp with h | h
  · rcases List.mem_append.1 h with h | h
    · rcases List.mem_append.1 h with h | h
      · rcases List.mem_append.1 h with h | h
        · have h1 := mem_problem_chars_bounds h
          simp only [is_pua_character, Bool.and_eq_false_iff, decide_eq_false_iff_not]
          left
          omega
        · have h1 := mem_special_codes h
          simp only [is_pua_character, Bool.and_eq_false_iff, decide_eq_false_iff_not]
          left
          omega
      · have h1 := mem_ascii_codes h
        simp only [is_pua_character, Bool.and_eq_false_iff, decide_eq_false_iff_not]
        left
        omega
    · have h1 := mem_katakana_codes h
      simp only [is_pua_character, Bool.and_eq_false_iff, decide_eq_false_iff_not]
      left
      omega
  · exact (mem_double_codes h).2.2.2

/-- C7 witness: the pua test applied through the theorem at a concrete
table row. -/
theorem generate_test_data_no_pua_witness : is_pua_character rec5C.code = false :=
  generate_test_data_no_pua dec5C rec5C (mem_of_head?_eq rfl)

/-- C10: every record's Unicode-context description and legacy-context
description are the same string: every pass stores the same `desc` value
in both fields. -/
theorem generate_test_data_description_eq (dec : Codec) :
    ∀ r ∈ generate_test_data dec, r.description = r.description_sjis := by
  intro r hr
  obtain ⟨c, w, ch, cat, d, hp⟩ := pre_records_mkPre (mem_stamp hr)
  show r.toPreRec.description = r.toPreRec.description_sjis
  rw [hp]
  rfl

/-- C10 witness: the description equality through the theorem at a
concrete table row. -/
theorem generate_test_data_description_eq_witness : rec5C.description = rec5C.description_sjis :=
  generate_test_data_description_eq dec5C rec5C (mem_of_head?_eq rfl)

/-- The row computed by `sjis_to_row_col` agrees with the specification's
row formula for every code. -/
theorem row_eq_claim_row (code : Nat) : (sjis_to_row_col code).1 = claim_row code := by
  simp only [sjis_to_row_col, claim_row]
  split_ifs <;> simp_all <;> omega

/-- C4: for every double-byte code that is not one of the 7 problem codes,
`get_category` selects the category by the specification's row formula and
fixed row bands; in particular `get_category 0x889F = "KANJI_LEVEL1"`. -/
theorem get_category_eq_claim_category (code : Nat) (h1 : 0xFF < code) (h2 : code ≤ 0xFFFF)
    (h3 : code ∉ problem_chars) :
    get_category code = claim_category code ∧ get_category 0x889F = "KANJI_LEVEL1" := by
  refine ⟨?_, rfl⟩
  rw [get_category, if_neg (by omega), if_neg (by omega), if_neg (by omega),
    if_neg (by omega), if_pos h1, if_neg h3]
  simp only [claim_category, row_eq_claim_row]

/-- C4 witness: the theorem applied at the level-1 kanji code 0x889F. -/
theorem get_category_eq_claim_category_witness :
    get_category 0x889F = claim_category 0x889F ∧ get_category 0x889F = "KANJI_LEVEL1" :=
  get_category_eq_claim_category 0x889F (by decide) (by decide) (by decide)

/-- Round-trip invariant of the pre-records: provided the decoder agrees
with cp932 on printable ASCII (which pass 3 short-cuts via `chr`), every
emitted row's `utf8_hex` is the uppercase hex of the UTF-8 encoding of the
character the decoder yields for the row's legacy bytes. -/
theorem pre_records_roundtrip {dec : Codec}
    (hA : ∀ c, 0x20 ≤ c → c ≤ 0x7F → dec [c] = some (Char.ofNat c)) :
    ∀ p ∈ pre_records dec, ∃ ch, dec (legacy_bytes p.code) = some ch ∧
      p.utf8_hex = bytesHexUpper (utf8EncodeChar ch) := by
  intro p hp
  rw [pre_records] at hp
  rcases List.mem_append.1 hp with h | h
  · rcases List.mem_append.1 h with h | h
    · rcases List.mem_append.1 h with h | h
      · rcases List.mem_append.1 h with h | h
        · obtain ⟨c, hc, hb⟩ := List.mem_filterMap.1 h
          obtain ⟨ch, hch, hpre⟩ := build_problem_some hb
          have hcb := mem_problem_chars_bounds hc
          refine ⟨ch, ?_, by rw [hpre]; rfl⟩
          rw [hpre, mkPre_code, legacy_bytes, if_neg (by omega)]
          exact hch
        · obtain ⟨c, hc, hb⟩ := List.mem_filterMap.1 h
          obtain ⟨ch, hch, hpre⟩ := build_special_some hb
          have hcb := mem_special_codes hc
          refine ⟨ch, ?_, by rw [hpre]; rfl⟩
          rw [hpre, mkPre_code, legacy_bytes, if_pos (by omega)]
          exact hch
      · obtain ⟨c, hc, hb⟩ := List.mem_filterMap.1 h
        have hpre := build_ascii_some hb
        have hcb := mem_ascii_codes hc
        refine ⟨Char.ofNat c, ?_, by rw [hpre]; rfl⟩
        rw [hpre, mkPre_code, legacy_bytes, if_pos (by omega)]
        exact hA c hcb.1 (by omega)
    · obtain ⟨c, hc, hb⟩ := List.mem_filterMap.1 h
      obtain ⟨ch, hch, hpre⟩ := build_katakana_some hb
      have hcb := mem_katakana_codes hc
      refine ⟨ch, ?_, by rw [hpre]; rfl⟩
      rw [hpre, mkPre_code, legacy_bytes, if_pos (by omega)]
      exact hch
  · obtain ⟨hi, hhi, hmem⟩ := List.mem_flatMap.1 h
    obtain ⟨lo, hlo, hb⟩ := List.mem_filterMap.1 hmem
    obtain ⟨_, _, _, ch, hch, hpre⟩ := build_double_some hb
    have h1 := mem_lead_bytes hhi
    have h2 := mem_trail_bytes hlo
    refine ⟨ch, ?_, by rw [hpre]; rfl⟩
    rw [hpre, mkPre_code, legacy_bytes, if_neg (by omega), doubleBytes]
    have e1 : (hi * 256 + lo) / 256 % 256 = hi := by omega
    have e2 : (hi * 256 + lo) % 256 = lo := by omega
    rw [e1, e2]
    exact hch

/-- C2: for every record of the table, `utf8_hex` is the uppercase hex of
the UTF-8 encoding of the character obtained by decoding the record's
legacy code bytes under the codec — in every pass, including the ASCII
pass (where the source builds the character via `chr` rather than the
codec; the hypothesis records that cp932 decodes printable ASCII bytes
identically). -/
theorem generate_test_data_roundtrip (dec : Codec)
    (hA : ∀ c, 0x20 ≤ c → c ≤ 0x7F → dec [c] = some (Char.ofNat c)) :
    ∀ r ∈ generate_test_data dec,
      ∃ ch, dec (legacy_bytes r.code) = some ch ∧
        r.utf8_hex = bytesHexUpper (utf8EncodeChar ch) := by
  intro r hr
  exact pre_records_roundtrip hA r.toPreRec (mem_stamp hr)

/-- C2 witness: the round-trip law through the theorem at a concrete
table row, with the decoder instantiated to the cp932 single-byte model. -/
theorem generate_test_data_roundtrip_witness :
    ∃ ch, cp932_single_byte_model (legacy_bytes rec5C.code) = some ch ∧
      rec5C.utf8_hex = bytesHexUpper (utf8EncodeChar ch) :=
  generate_test_data_roundtrip cp932_single_byte_model
    (fun c h1 h2 => by simp only [cp932_single_byte_model, if_pos (And.intro h1 h2)])
    rec5C (mem_of_head?_eq rfl)

/-- A successful pass-2 build lands in the final table (with some id). -/
theorem build_special_mem_table {dec : Codec} {c : Nat} {p : PreRec}
    (hc : c ∈ special_codes) (hb : build_special dec c = some p) :
    ∃ k, ({ toPreRec := p, id := k } : Record) ∈ generate_test_data dec := by
  have h2 : p ∈ special_codes.filterMap (build_special dec) :=
    List.mem_filterMap.2 ⟨c, hc, hb⟩
  have hpre : p ∈ pre_records dec := by
    rw [pre_records]
    exact List.mem_append.2 (Or.inl (List.mem_append.2 (Or.inl
      (List.mem_append.2 (Or.inl (List.mem_append.2 (Or.inr h2)))))))
  exact mem_stamp_of_mem 1 hpre

/-- Any row of the cp932-model table carrying legacy code 0x5C is the
pass-2 row built from the model's decoding of the byte 0x5C. -/
theorem pre_record_0x5C_model {p : PreRec}
    (hp : p ∈ pre_records cp932_single_byte_model) (hc : p.code = 0x5C) :
    p = mkPre 0x5C 2 (Char.ofNat 0x5C) "SPECIAL_SINGLE" (get_description 0x5C "SPECIAL_SINGLE") := by
  rw [pre_records] at hp
  rcases List.mem_append.1 hp with h | h
  · rcases List.mem_append.1 h with h | h
    · rcases List.mem_append.1 h with h | h
      · rcases List.mem_append.1 h with h | h
        · obtain ⟨c, hcm, hb⟩ := List.mem_filterMap.1 h
          have := mem_problem_chars_bounds hcm
          rw [build_problem_code hb] at hc
          omega
        · obtain ⟨c, hcm, hb⟩ := List.mem_filterMap.1 h
          rw [build_special_code hb] at hc
          subst hc
          obtain ⟨ch, hch, hpre⟩ := build_special_some hb
          have hch' : cp932_single_byte_model [0x5C] = some (Char.ofNat 0x5C) := rfl
          rw [hch'] at hch
          cases hch
          exact hpre
      · obtain ⟨c, hcm, hb⟩ := List.mem_filterMap.1 h
        have := mem_ascii_codes hcm
        rw [build_ascii_code hb] at hc
        omega
    · obtain ⟨c, hcm, hb⟩ := List.mem_filterMap.1 h
      have := mem_katakana_codes hcm
      rw [build_katakana_code hb] at hc
      omega
  · obtain ⟨hi, hhi, hmem⟩ := List.mem_flatMap.1 h
    obtain ⟨lo, hlo, hb⟩ := List.mem_filterMap.1 hmem
    have := build_double_candidate hb
    have h1 := mem_lead_bytes hhi
    have h2 := mem_trail_bytes hlo
    obtain ⟨he, _, _⟩ := double_candidate_some this
    rw [hc] at he
    omega

/-- C1 counterexample: in the table generated with the cp932 single-byte
model, a record with legacy code 0x5C exists, and every such record's
`unicode` field is `"U+005C"` — not `"U+00A5"` as the claim states
(Python's cp932 decodes the byte 0x5C to U+005C REVERSE SOLIDUS, not to
the yen sign). -/
theorem record_0x5C_unicode_not_yen :
    (∃ r ∈ generate_test_data cp932_single_byte_model, r.code = 0x5C ∧ r.unicode = "U+005C") ∧
    ∀ r ∈ generate_test_data cp932_single_byte_model, r.code = 0x5C → r.unicode ≠ "U+00A5" := by
  constructor
  · have hb : build_special cp932_single_byte_model 0x5C
        = some (mkPre 0x5C 2 (Char.ofNat 0x5C) "SPECIAL_SINGLE" (get_description 0x5C "SPECIAL_SINGLE")) := rfl
    obtain ⟨k, hk⟩ := build_special_mem_table (by decide) hb
    exact ⟨_, hk, rfl, rfl⟩
  · intro r hr hc hu
    have hp := pre_record_0x5C_model (mem_stamp hr) hc
    have : r.unicode = "U+005C" := by
      show r.toPreRec.unicode = "U+005C"
      rw [hp]
      rfl
    rw [this] at hu
    exact absurd hu (by decide)

/-- C1 (amended): for any decoder mapping the byte 0x5C as cp932 does —
to U+005C — the table contains a record with legacy code 0x5C, category
`SPECIAL_SINGLE`, and unicode field `"U+005C"`. -/
theorem record_0x5C_special_single (dec : Codec)
    (h5C : dec [0x5C] = some (Char.ofNat 0x5C)) :
    ∃ r ∈ generate_test_data dec,
      r.code = 0x5C ∧ r.category = "SPECIAL_SINGLE" ∧ r.unicode = "U+005C" := by
  have hb : build_special dec 0x5C
      = some (mkPre 0x5C 2 (Char.ofNat 0x5C) "SPECIAL_SINGLE" (get_description 0x5C "SPECIAL_SINGLE")) := by
    rw [build_special, h5C]
    rfl
  obtain ⟨k, hk⟩ := build_special_mem_table (by decide) hb
  exact ⟨_, hk, rfl, rfl, rfl⟩

/-- C1 witness: the amended statement through the theorem at the concrete
decoder `dec5C`. -/
theorem record_0x5C_special_single_witness :
    ∃ r ∈ generate_test_data dec5C,
      r.code = 0x5C ∧ r.category = "SPECIAL_SINGLE" ∧ r.unicode = "U+005C" :=
  record_0x5C_special_single dec5C rfl

/-- C3 (code bug): the pass-5 handler swallows a non-codec failure with no
report line — its source comment says "Other errors, log and continue",
and the claim says such failures are reported with the offending code —
while the pass-1 handler does report, as the claim describes.  Enumeration
continues in both cases (the handler yields `none` rather than
propagating). -/
theorem handle_doublebyte_swallows_other_failures :
    (handle_doublebyte 0x8140 (StepOutcome.otherFailure "unexpected error")).2 = [] ∧
    (handle_problem_char 0x815C (StepOutcome.otherFailure "unexpected error")).2
      = ["Error processing problem char 0x815C: unexpected error"] := by
  constructor
  · rfl
  · rfl

/-- Replace-mode encoding agrees with strict-mode encoding whenever the
strict encode succeeds. -/
theorem encodeReplace_eq_of_strict {enc : Encoder} :
    ∀ {s : List Char} {bs : List Nat}, encodeStrict enc s = some bs → encodeReplace enc s = bs := by
  intro s
  induction s with
  | nil =>
      intro bs h
      simp only [encodeStrict, Option.some.injEq] at h
      simp [encodeReplace, h]
  | cons c cs ih =>
      intro bs h
      rw [encodeStrict] at h
      cases hc : enc c with
      | none => rw [hc] at h; cases h
      | some cb =>
          rw [hc] at h
          cases hrest : encodeStrict enc cs with
          | none => rw [hrest] at h; cases h
          | some rest =>
              rw [hrest, Option.some.injEq] at h
              subst h
              simp [encodeReplace, List.flatMap_cons, hc]
              have := ih hrest
              simpa [encodeReplace] using this

/-- Strict-mode encoding fails as soon as any character of the string is
unencodable. -/
theorem encodeStrict_none_of_mem {enc : Encoder} {c : Char}
    (hc : enc c = none) : ∀ {s : List Char}, c ∈ s → encodeStrict enc s = none := by
  intro s
  induction s with
  | nil => intro h; cases h
  | cons a as ih =>
      intro h
      rcases List.mem_cons.1 h with rfl | h
      · rw [encodeStrict, hc]
      · rw [encodeStrict, ih h]
        cases enc a <;> rfl

/-- C8: the legacy-encoded CSV and HTML writes never abort: both files are
written through replace-mode encoding, which agrees with strict encoding
whenever the latter succeeds, substitutes the marker byte 0x3F (`?`) for
every unencodable character, and is total — whereas strict encoding fails
on any table content containing an unencodable character. -/
theorem write_sjis_always_completes (enc : Encoder) (data : List Record) :
    (∀ bs, encodeStrict enc (csv_sjis_content data).data = some bs →
      write_csv_sjis_bytes enc data = bs) ∧
    (∀ bs, encodeStrict enc (html_sjis_content data).data = some bs →
      write_html_sjis_bytes enc data = bs) ∧
    (∀ c s, enc c = none → c ∈ s → encodeStrict enc s = none) ∧
    (∀ c, enc c = none → encodeReplace enc [c] = [0x3F]) := by
  refine ⟨?_, ?_, ?_, ?_⟩
  · intro bs h
    exact encodeReplace_eq_of_strict h
  · intro bs h
    exact encodeReplace_eq_of_strict h
  · intro c s hc hm
    exact encodeStrict_none_of_mem hc hm
  · intro c hc
    simp [encodeReplace, hc]

/-- C8 witness: the strict/replace contrast through the theorem at a
concrete unencodable character. -/
theorem write_sjis_always_completes_witness :
    encodeStrict (fun _ => none) ['A'] = none ∧
    encodeReplace (fun _ => none) ['A'] = [0x3F] :=
  ⟨(write_sjis_always_completes (fun _ => none) []).2.2.1 'A' ['A'] rfl (by decide),
   (write_sjis_always_completes (fun _ => none) []).2.2.2 'A' rfl⟩

/-- C9: in both HTML emitters the character cell escapes exactly the four
HTML-sensitive characters to their entity forms and inserts every other
character verbatim, and the `<tr>` of a `PROBLEM` or `SPECIAL_SINGLE` row
carries the distinguishing class attribute while every other row's class
string is empty; both row emitters place `row_class` in the `<tr>` and
`char_display` in the character cell. -/
theorem html_rows_escape_and_mark (r : Record) :
    (char_display '<' = "&lt;" ∧ char_display '>' = "&gt;" ∧
     char_display '&' = "&amp;" ∧ char_display '"' = "&quot;") ∧
    (r.char ∉ ['<', '>', '&', '"'] → char_display r.char = String.singleton r.char) ∧
    (row_class "PROBLEM" = "class=\"problem\"" ∧
     row_class "SPECIAL_SINGLE" = "class=\"special\"") ∧
    (r.category ≠ "PROBLEM" → r.category ≠ "SPECIAL_SINGLE" → row_class r.category = "") ∧
    (∃ mid tail, html_row_utf8 r = "        <tr " ++ row_class r.category ++ ">" ++ mid
      ++ "<td class=\"char-cell\">" ++ char_display r.char ++ "</td>" ++ tail) ∧
    (∃ mid tail, html_row_sjis r = "        <tr " ++ row_class r.category ++ ">" ++ mid
      ++ "<td class=\"char-cell\">" ++ char_display r.char ++ "</td>" ++ tail) := by
  refine ⟨⟨rfl, rfl, rfl, rfl⟩, ?_, ⟨rfl, rfl⟩, ?_, ?_, ?_⟩
  · intro h
    simp only [List.mem_cons, List.not_mem_nil, or_false, not_or] at h
    rw [char_display, if_neg h.1, if_neg h.2.1, if_neg h.2.2.1, if_neg h.2.2.2]
  · intro h1 h2
    rw [row_class, if_neg h1, if_neg h2]
  · refine ⟨"\n            <td>" ++ toString r.id ++ "</td>\n            <td>" ++ r.sjis_hex
      ++ "</td>\n            ",
      "\n            <td>" ++ r.utf8_hex ++ "</td>\n            <td>" ++ r.unicode
      ++ "</td>\n            <td>" ++ r.category ++ "</td>\n            <td>" ++ r.description
      ++ "</td>\n        </tr>\n", ?_⟩
    simp only [html_row_utf8, String.append_assoc]
    rfl
  · refine ⟨"\n            <td>" ++ toString r.id ++ "</td>\n            <td>" ++ r.sjis_hex
      ++ "</td>\n            ",
      "\n            <td>" ++ r.utf8_hex ++ "</td>\n            <td>" ++ r.unicode
      ++ "</td>\n            <td>" ++ r.category ++ "</td>\n            <td>" ++ r.description_sjis
      ++ "</td>\n        </tr>\n", ?_⟩
    simp only [html_row_sjis, String.append_assoc]
    rfl

/-- C9 witness: escaping and marking through the theorem at a concrete
plain-ASCII row. -/
theorem html_rows_escape_and_mark_witness :
    char_display 'A' = String.singleton 'A' ∧ row_class "ASCII" = "" :=
  ⟨(html_rows_escape_and_mark recA).2.1 (by decide),
   (html_rows_escape_and_mark recA).2.2.2.1 (by decide) (by decide)⟩
